import Mathlib

/-!
Verification of the imageCropper backend (`server.js`, two revisions).

The file embeds the pieces of the code that the specification talks about:
the nested grid-cropping `while` loops (both revisions share them), the
`crop_<x>_<y>.jpg` member naming, the request-validation prefix of the two
`POST /api/crop-and-process` handlers, the `uploadWithRetry` wrapper around
`async-retry`, the one-pass zip/upload stream of revision 2, and the
member-add / stream-consume event ordering of revision 2.
-/

namespace ImageCropper

/-- A crop rectangle, as built in `server.js`:
`{ left: x, top: y, width: …, height: … }` (rev 1 lines 54–59, rev 2 lines 171–176). -/
structure Rect where
  left : Nat
  top : Nat
  width : Nat
  height : Nat
deriving DecidableEq, Repr

/-- Ceiling division `⌈a / b⌉`, written as in the spec for positive `b`: `(a + b - 1) / b`. -/
def cdiv (a b : Nat) : Nat := (a + b - 1) / b

/-- The inner `while (x < metadata.width)` loop of `server.js` (rev 1 lines 53–67,
rev 2 lines 170–192): each iteration emits its `cropArea` and advances
`x += cropWidthInt`.  The source loop only terminates for a positive step —
which the handler's validation guarantees — so the embedding carries that
precondition as the proof argument `hw`. -/
def rowLoop (width cropWidthInt cropHeightInt height y : Nat) (hw : 0 < cropWidthInt)
    (x : Nat) : List Rect :=
  if _hx : x < width then
    { left := x, top := y,
      width := min cropWidthInt (width - x),
      height := min cropHeightInt (height - y) } ::
      rowLoop width cropWidthInt cropHeightInt height y hw (x + cropWidthInt)
  else []
termination_by width - x
decreasing_by omega

/-- The outer `while (y < metadata.height)` loop (rev 1 lines 52–70, rev 2
lines 169–195): runs a full row starting at `x = 0`, then `x = 0; y += cropHeightInt`. -/
def gridLoop (width height cropWidthInt cropHeightInt : Nat)
    (hw : 0 < cropWidthInt) (hh : 0 < cropHeightInt) (y : Nat) : List Rect :=
  if _hy : y < height then
    rowLoop width cropWidthInt cropHeightInt height y hw 0 ++
      gridLoop width height cropWidthInt cropHeightInt hw hh (y + cropHeightInt)
  else []
termination_by height - y
decreasing_by omega

/-- GridPlanner: the whole nested loop, started at `x = 0, y = 0`. -/
def plan (width height cropWidthInt cropHeightInt : Nat)
    (hw : 0 < cropWidthInt) (hh : 0 < cropHeightInt) : List Rect :=
  gridLoop width height cropWidthInt cropHeightInt hw hh 0

/-- Closed form of the rectangle at grid position `(i, j)` (column `i`, row `j`). -/
def planRect (width height cropWidthInt cropHeightInt i j : Nat) : Rect :=
  { left := i * cropWidthInt, top := j * cropHeightInt,
    width := min cropWidthInt (width - i * cropWidthInt),
    height := min cropHeightInt (height - j * cropHeightInt) }

lemma cdiv_zero (b : Nat) (hb : 0 < b) : cdiv 0 b = 0 := by
  unfold cdiv
  exact Nat.div_eq_of_lt (by omega)

lemma cdiv_succ (a b : Nat) (hb : 0 < b) (ha : 0 < a) :
    cdiv a b = cdiv (a - b) b + 1 := by
  unfold cdiv
  by_cases hab : a ≤ b
  · have h1 : a - b = 0 := by omega
    rw [h1]
    have h2 : (0 + b - 1) / b = 0 := Nat.div_eq_of_lt (by omega)
    rw [h2]
    have h3 : a + b - 1 = (a - 1) + b := by omega
    rw [h3, Nat.add_div_right _ hb]
    have h4 : (a - 1) / b = 0 := Nat.div_eq_of_lt (by omega)
    omega
  · have h3 : a + b - 1 = (a - b + b - 1) + b := by omega
    rw [h3, Nat.add_div_right _ hb]

lemma le_cdiv_mul (a b : Nat) (hb : 0 < b) : a ≤ cdiv a b * b := by
  unfold cdiv
  have h1 := Nat.mod_add_div (a + b - 1) b
  have h2 : (a + b - 1) % b < b := Nat.mod_lt _ hb
  set q := (a + b - 1) / b with hq
  set r := (a + b - 1) % b with hr
  have h3 : b * q = a + b - 1 - r := by omega
  calc a ≤ b * q := by omega
    _ = q * b := Nat.mul_comm _ _

lemma mul_lt_of_lt_cdiv (a b i : Nat) (hb : 0 < b) (hi : i < cdiv a b) :
    i * b < a := by
  have ha : 0 < a := by
    by_contra h
    have : a = 0 := by omega
    rw [this, cdiv_zero _ hb] at hi
    omega
  have h1 : cdiv a b = (a - 1) / b + 1 := by
    unfold cdiv
    have h2 : a + b - 1 = (a - 1) + b := by omega
    rw [h2, Nat.add_div_right _ hb]
  have h3 : i ≤ (a - 1) / b := by omega
  have h4 : i * b ≤ (a - 1) / b * b := Nat.mul_le_mul_right _ h3
  have h5 : (a - 1) / b * b ≤ a - 1 := Nat.div_mul_le_self _ _
  omega

/-- Closed form of the inner loop: starting at `x`, it emits one rectangle per
column index `i < ⌈(width − x) / cropWidthInt⌉`, at `left = x + i·cropWidthInt`. -/
lemma rowLoop_eq (width cropWidthInt cropHeightInt height y : Nat) (hw : 0 < cropWidthInt) :
    ∀ m x, width - x ≤ m →
      rowLoop width cropWidthInt cropHeightInt height y hw x =
        (List.range (cdiv (width - x) cropWidthInt)).map (fun i =>
          { left := x + i * cropWidthInt, top := y,
            width := min cropWidthInt (width - (x + i * cropWidthInt)),
            height := min cropHeightInt (height - y) }) := by
  intro m
  induction m with
  | zero =>
    intro x hx
    rw [rowLoop]
    rw [dif_neg (by omega)]
    have h0 : width - x = 0 := by omega
    rw [h0, cdiv_zero _ hw]
    simp
  | succ m ih =>
    intro x hx
    rw [rowLoop]
    by_cases hlt : x < width
    · rw [dif_pos hlt]
      rw [ih (x + cropWidthInt) (by omega)]
      have hpos : 0 < width - x := by omega
      rw [cdiv_succ _ _ hw hpos]
      have hsub : width - x - cropWidthInt = width - (x + cropWidthInt) := by omega
      rw [hsub]
      rw [List.range_succ_eq_map, List.map_cons, List.map_map]
      congr 1
      · simp
      · apply List.map_congr_left
        intro i _
        have h1 : x + (i + 1) * cropWidthInt = x + cropWidthInt + i * cropWidthInt := by
          ring
        simp [Function.comp, Nat.succ_eq_add_one, h1]
    · rw [dif_neg hlt]
      have h0 : width - x = 0 := by omega
      rw [h0, cdiv_zero _ hw]
      simp

/-- Closed form of the outer loop: one full row per row index `j`. -/
lemma gridLoop_eq (width height cropWidthInt cropHeightInt : Nat)
    (hw : 0 < cropWidthInt) (hh : 0 < cropHeightInt) :
    ∀ m y, height - y ≤ m →
      gridLoop width height cropWidthInt cropHeightInt hw hh y =
        ((List.range (cdiv (height - y) cropHeightInt)).map (fun j =>
          rowLoop width cropWidthInt cropHeightInt height (y + j * cropHeightInt) hw 0)).flatten := by
  intro m
  induction m with
  | zero =>
    intro y hy
    rw [gridLoop]
    rw [dif_neg (by omega)]
    have h0 : height - y = 0 := by omega
    rw [h0, cdiv_zero _ hh]
    simp
  | succ m ih =>
    intro y hy
    rw [gridLoop]
    by_cases hlt : y < height
    · rw [dif_pos hlt]
      rw [ih (y + cropHeightInt) (by omega)]
      have hpos : 0 < height - y := by omega
      rw [cdiv_succ _ _ hh hpos]
      have hsub : height - y - cropHeightInt = height - (y + cropHeightInt) := by omega
      rw [hsub]
      rw [List.range_succ_eq_map, List.map_cons, List.map_map, List.flatten_cons]
      congr 1
      · simp
      · apply congrArg
        apply List.map_congr_left
        intro j _
        have h1 : y + (j + 1) * cropHeightInt = y + cropHeightInt + j * cropHeightInt := by
          ring
        simp [Function.comp, Nat.succ_eq_add_one, h1]
    · rw [dif_neg hlt]
      have h0 : height - y = 0 := by omega
      rw [h0, cdiv_zero _ hh]
      simp

/-- The planner in closed form: the row-major grid of `planRect`s. -/
lemma plan_eq (width height cropWidthInt cropHeightInt : Nat)
    (hw : 0 < cropWidthInt) (hh : 0 < cropHeightInt) :
    plan width height cropWidthInt cropHeightInt hw hh =
      ((List.range (cdiv height cropHeightInt)).map (fun j =>
        (List.range (cdiv width cropWidthInt)).map (fun i =>
          planRect width height cropWidthInt cropHeightInt i j))).flatten := by
  unfold plan
  rw [gridLoop_eq width height cropWidthInt cropHeightInt hw hh (height - 0) 0 le_rfl]
  have h0 : height - 0 = height := by omega
  rw [h0]
  apply congrArg
  apply List.map_congr_left
  intro j _
  rw [rowLoop_eq width cropWidthInt cropHeightInt height (0 + j * cropHeightInt) hw
    (width - 0) 0 le_rfl]
  have h1 : width - 0 = width := by omega
  rw [h1]
  apply List.map_congr_left
  intro i _
  simp [planRect]

/-- Membership in the plan, in terms of grid coordinates. -/
lemma mem_plan_iff (width height cropWidthInt cropHeightInt : Nat)
    (hw : 0 < cropWidthInt) (hh : 0 < cropHeightInt) (r : Rect) :
    r ∈ plan width height cropWidthInt cropHeightInt hw hh ↔
      ∃ i j, i < cdiv width cropWidthInt ∧ j < cdiv height cropHeightInt ∧
        r = planRect width height cropWidthInt cropHeightInt i j := by
  rw [plan_eq _ _ _ _ hw hh]
  simp only [List.mem_flatten, List.mem_map, List.mem_range]
  constructor
  · rintro ⟨_, ⟨j, hj, rfl⟩, hr⟩
    rcases List.mem_map.mp hr with ⟨i, hi, rfl⟩
    exact ⟨i, j, List.mem_range.mp hi, hj, rfl⟩
  · rintro ⟨i, j, hi, hj, rfl⟩
    exact ⟨_, ⟨j, hj, rfl⟩, List.mem_map.mpr ⟨i, List.mem_range.mpr hi, rfl⟩⟩

/-- The number of rectangles is `⌈width/w⌉ · ⌈height/h⌉`. -/
lemma length_plan (width height cropWidthInt cropHeightInt : Nat)
    (hw : 0 < cropWidthInt) (hh : 0 < cropHeightInt) :
    (plan width height cropWidthInt cropHeightInt hw hh).length =
      cdiv width cropWidthInt * cdiv height cropHeightInt := by
  rw [plan_eq _ _ _ _ hw hh, List.length_flatten, List.map_map]
  have h1 : (List.length ∘ fun j => (List.range (cdiv width cropWidthInt)).map (fun i =>
      planRect width height cropWidthInt cropHeightInt i j)) =
      fun _ => cdiv width cropWidthInt := by
    funext j
    simp
  rw [h1, List.map_const', List.sum_const_nat, List.length_range]
  exact Nat.mul_comm _ _

/-- Pixel `(p, q)` lies inside rectangle `r`. -/
def inside (r : Rect) (p q : Nat) : Prop :=
  r.left ≤ p ∧ p < r.left + r.width ∧ r.top ≤ q ∧ q < r.top + r.height

/-- Row-major order on rectangles: strictly earlier row, or same row and strictly
smaller x. -/
def rectBefore (r₁ r₂ : Rect) : Prop :=
  r₁.top < r₂.top ∨ (r₁.top = r₂.top ∧ r₁.left < r₂.left)

/-- Two rectangles share no pixel. -/
def disjointRect (r₁ r₂ : Rect) : Prop :=
  ∀ p q : Nat, ¬ (inside r₁ p q ∧ inside r₂ p q)

lemma div_lt_cdiv (a b p : Nat) (hb : 0 < b) (hp : p < a) : p / b < cdiv a b := by
  by_contra hcon
  have h1 : cdiv a b ≤ p / b := by omega
  have h2 : cdiv a b * b ≤ p / b * b := Nat.mul_le_mul_right _ h1
  have h3 : p / b * b ≤ p := Nat.div_mul_le_self _ _
  have h4 : a ≤ cdiv a b * b := le_cdiv_mul _ _ hb
  omega

lemma planRect_rel_horiz (width height cropWidthInt cropHeightInt : Nat)
    (hw : 0 < cropWidthInt) (i₁ i₂ j : Nat) (h : i₁ < i₂) :
    rectBefore (planRect width height cropWidthInt cropHeightInt i₁ j)
        (planRect width height cropWidthInt cropHeightInt i₂ j) ∧
      disjointRect (planRect width height cropWidthInt cropHeightInt i₁ j)
        (planRect width height cropWidthInt cropHeightInt i₂ j) := by
  have key : (i₁ + 1) * cropWidthInt ≤ i₂ * cropWidthInt :=
    Nat.mul_le_mul_right _ (by omega)
  have hs : (i₁ + 1) * cropWidthInt = i₁ * cropWidthInt + cropWidthInt := by ring
  constructor
  · exact Or.inr ⟨rfl, by simp only [planRect]; omega⟩
  · intro p q hpq
    obtain ⟨h₁, h₂⟩ := hpq
    simp only [inside, planRect] at h₁ h₂
    omega

lemma planRect_rel_vert (width height cropWidthInt cropHeightInt : Nat)
    (hh : 0 < cropHeightInt) (i₁ i₂ j₁ j₂ : Nat) (h : j₁ < j₂) :
    rectBefore (planRect width height cropWidthInt cropHeightInt i₁ j₁)
        (planRect width height cropWidthInt cropHeightInt i₂ j₂) ∧
      disjointRect (planRect width height cropWidthInt cropHeightInt i₁ j₁)
        (planRect width height cropWidthInt cropHeightInt i₂ j₂) := by
  have key : (j₁ + 1) * cropHeightInt ≤ j₂ * cropHeightInt :=
    Nat.mul_le_mul_right _ (by omega)
  have hs : (j₁ + 1) * cropHeightInt = j₁ * cropHeightInt + cropHeightInt := by ring
  constructor
  · exact Or.inl (by simp only [planRect]; omega)
  · intro p q hpq
    obtain ⟨h₁, h₂⟩ := hpq
    simp only [inside, planRect] at h₁ h₂
    omega

/-- The plan is pairwise row-major-ordered and pairwise disjoint. -/
lemma plan_pairwise (width height cropWidthInt cropHeightInt : Nat)
    (hw : 0 < cropWidthInt) (hh : 0 < cropHeightInt) :
    List.Pairwise (fun r₁ r₂ => rectBefore r₁ r₂ ∧ disjointRect r₁ r₂)
      (plan width height cropWidthInt cropHeightInt hw hh) := by
  rw [plan_eq _ _ _ _ hw hh, List.pairwise_flatten]
  constructor
  · intro row hrow
    rcases List.mem_map.mp hrow with ⟨j, _, rfl⟩
    rw [List.pairwise_map]
    exact (List.pairwise_lt_range _).imp
      (fun hij => planRect_rel_horiz _ _ _ _ hw _ _ j hij)
  · rw [List.pairwise_map]
    apply (List.pairwise_lt_range _).imp
    intro j₁ j₂ hj r₁ h₁ r₂ h₂
    rcases List.mem_map.mp h₁ with ⟨i₁, _, rfl⟩
    rcases List.mem_map.mp h₂ with ⟨i₂, _, rfl⟩
    exact planRect_rel_vert _ _ _ _ hh i₁ i₂ _ _ hj

/-- Every pixel of the image is covered by some planned rectangle. -/
lemma plan_cover (width height cropWidthInt cropHeightInt : Nat)
    (hw : 0 < cropWidthInt) (hh : 0 < cropHeightInt) (p q : Nat)
    (hp : p < width) (hq : q < height) :
    ∃ r ∈ plan width height cropWidthInt cropHeightInt hw hh, inside r p q := by
  refine ⟨planRect width height cropWidthInt cropHeightInt (p / cropWidthInt) (q / cropHeightInt),
    ?_, ?_⟩
  · rw [mem_plan_iff _ _ _ _ hw hh]
    exact ⟨p / cropWidthInt, q / cropHeightInt, div_lt_cdiv _ _ _ hw hp,
      div_lt_cdiv _ _ _ hh hq, rfl⟩
  · have h1 := Nat.mod_add_div' p cropWidthInt
    have h2 : p % cropWidthInt < cropWidthInt := Nat.mod_lt _ hw
    have h3 := Nat.mod_add_div' q cropHeightInt
    have h4 : q % cropHeightInt < cropHeightInt := Nat.mod_lt _ hh
    simp only [inside, planRect]
    omega

/-- Every planned rectangle stays inside the image. -/
lemma plan_inside_image (width height cropWidthInt cropHeightInt : Nat)
    (hw : 0 < cropWidthInt) (hh : 0 < cropHeightInt) :
    ∀ r ∈ plan width height cropWidthInt cropHeightInt hw hh,
      r.left + r.width ≤ width ∧ r.top + r.height ≤ height := by
  intro r hr
  rw [mem_plan_iff _ _ _ _ hw hh] at hr
  obtain ⟨i, j, hi, hj, rfl⟩ := hr
  have h1 : i * cropWidthInt < width := mul_lt_of_lt_cdiv _ _ _ hw hi
  have h2 : j * cropHeightInt < height := mul_lt_of_lt_cdiv _ _ _ hh hj
  simp only [planRect]
  omega

/-- C1: for every image of positive width and height and every positive tile size,
the grid loop produces exactly `⌈width/w⌉ · ⌈height/h⌉` rectangles, they cover the
whole `width × height` pixel rectangle, stay inside it, no two of them overlap, and
they are emitted in row-major order (ascending y, then ascending x within a row). -/
theorem grid_partition_correct (width height cropWidthInt cropHeightInt : Nat)
    (hW : 0 < width) (hH : 0 < height) (hw : 0 < cropWidthInt) (hh : 0 < cropHeightInt) :
    (plan width height cropWidthInt cropHeightInt hw hh).length =
        cdiv width cropWidthInt * cdiv height cropHeightInt
    ∧ (∀ p q, p < width → q < height →
        ∃ r ∈ plan width height cropWidthInt cropHeightInt hw hh, inside r p q)
    ∧ (∀ r ∈ plan width height cropWidthInt cropHeightInt hw hh,
        r.left + r.width ≤ width ∧ r.top + r.height ≤ height)
    ∧ List.Pairwise (fun r₁ r₂ => rectBefore r₁ r₂ ∧ disjointRect r₁ r₂)
        (plan width height cropWidthInt cropHeightInt hw hh) :=
  ⟨length_plan _ _ _ _ hw hh,
   fun p q hp hq => plan_cover _ _ _ _ hw hh p q hp hq,
   plan_inside_image _ _ _ _ hw hh,
   plan_pairwise _ _ _ _ hw hh⟩

/-- Witness for C1 at the spec's own scenario 2 (image 100×100, tile 60×60):
the hypotheses hold and the planner emits `⌈100/60⌉·⌈100/60⌉ = 4` rectangles. -/
theorem grid_partition_correct_witness :
    (0 < 100 ∧ 0 < 100 ∧ 0 < 60 ∧ 0 < 60) ∧
      (plan 100 100 60 60 (by norm_num) (by norm_num)).length = 4 := by
  refine ⟨by norm_num, ?_⟩
  have h := (grid_partition_correct 100 100 60 60 (by norm_num) (by norm_num)
    (by norm_num) (by norm_num)).1
  rw [h]
  decide

/-- C2: every planned rectangle has width in `[1, w]` and height in `[1, h]`;
a rectangle of the rightmost column (characterized by `width ≤ left + w`) has
width `< w` exactly when `width` is not a multiple of `w`, every other rectangle
has width exactly `w`; symmetrically for the bottom row and heights. -/
theorem tile_bounds (width height cropWidthInt cropHeightInt : Nat)
    (hW : 0 < width) (hH : 0 < height) (hw : 0 < cropWidthInt) (hh : 0 < cropHeightInt) :
    ∀ r ∈ plan width height cropWidthInt cropHeightInt hw hh,
      (1 ≤ r.width ∧ r.width ≤ cropWidthInt ∧ 1 ≤ r.height ∧ r.height ≤ cropHeightInt)
      ∧ (width ≤ r.left + cropWidthInt →
          (r.width < cropWidthInt ↔ width % cropWidthInt ≠ 0))
      ∧ (r.left + cropWidthInt < width → r.width = cropWidthInt)
      ∧ (height ≤ r.top + cropHeightInt →
          (r.height < cropHeightInt ↔ height % cropHeightInt ≠ 0))
      ∧ (r.top + cropHeightInt < height → r.height = cropHeightInt) := by
  intro r hr
  rw [mem_plan_iff _ _ _ _ hw hh] at hr
  obtain ⟨i, j, hi, hj, rfl⟩ := hr
  have h1 : i * cropWidthInt < width := mul_lt_of_lt_cdiv _ _ _ hw hi
  have h2 : j * cropHeightInt < height := mul_lt_of_lt_cdiv _ _ _ hh hj
  have hmodw : (width - i * cropWidthInt + i * cropWidthInt) % cropWidthInt =
      (width - i * cropWidthInt) % cropWidthInt := Nat.add_mul_mod_self_right _ _ _
  have hmodh : (height - j * cropHeightInt + j * cropHeightInt) % cropHeightInt =
      (height - j * cropHeightInt) % cropHeightInt := Nat.add_mul_mod_self_right _ _ _
  have hW' : width - i * cropWidthInt + i * cropWidthInt = width := by omega
  have hH' : height - j * cropHeightInt + j * cropHeightInt = height := by omega
  rw [hW'] at hmodw
  rw [hH'] at hmodh
  simp only [planRect]
  refine ⟨by omega, ?_, by omega, ?_, by omega⟩
  · intro hright
    have hrem : width - i * cropWidthInt ≤ cropWidthInt := by omega
    rcases Nat.lt_or_ge (width - i * cropWidthInt) cropWidthInt with hlt | hge
    · have : (width - i * cropWidthInt) % cropWidthInt = width - i * cropWidthInt :=
        Nat.mod_eq_of_lt hlt
      omega
    · have heq : width - i * cropWidthInt = cropWidthInt := by omega
      rw [heq, Nat.mod_self] at hmodw
      omega
  · intro hbottom
    have hrem : height - j * cropHeightInt ≤ cropHeightInt := by omega
    rcases Nat.lt_or_ge (height - j * cropHeightInt) cropHeightInt with hlt | hge
    · have : (height - j * cropHeightInt) % cropHeightInt = height - j * cropHeightInt :=
        Nat.mod_eq_of_lt hlt
      omega
    · have heq : height - j * cropHeightInt = cropHeightInt := by omega
      rw [heq, Nat.mod_self] at hmodh
      omega

/-- Witness for C2 at image 100×100, tile 60×60: the first rectangle is interior
(full width 60) in x and the plan contains a clamped 40-wide rectangle. -/
theorem tile_bounds_witness :
    (0 < 100 ∧ 0 < 60) ∧
      (1 ≤ (planRect 100 100 60 60 0 0).width ∧
        (planRect 100 100 60 60 0 0).width ≤ 60 ∧
        1 ≤ (planRect 100 100 60 60 0 0).height ∧
        (planRect 100 100 60 60 0 0).height ≤ 60) := by
  refine ⟨by norm_num, ?_⟩
  have hmem : planRect 100 100 60 60 0 0 ∈ plan 100 100 60 60 (by norm_num) (by norm_num) := by
    rw [mem_plan_iff]
    exact ⟨0, 0, by decide, by decide, rfl⟩
  exact (tile_bounds 100 100 60 60 (by norm_num) (by norm_num) (by norm_num) (by norm_num)
    (planRect 100 100 60 60 0 0) hmem).1

/-- Decimal digit characters, as JS number-to-string rendering uses them. -/
def digitChar (d : Nat) : Char :=
  match d with
  | 0 => '0' | 1 => '1' | 2 => '2' | 3 => '3' | 4 => '4'
  | 5 => '5' | 6 => '6' | 7 => '7' | 8 => '8' | 9 => '9'
  | _ => '*'

/-- Decimal rendering of a natural number, as a JS template literal `${n}` renders
a non-negative integer. -/
def natChars (n : Nat) : List Char :=
  if n = 0 then ['0'] else ((Nat.digits 10 n).map digitChar).reverse

/-- The archive member name `crop_${x}_${y}.jpg` (rev 1 line 65, rev 2 line 189). -/
def memberName (x y : Nat) : String :=
  ⟨"crop_".data ++ natChars x ++ '_' :: natChars y ++ ".jpg".data⟩

lemma digitChar_ne_underscore : ∀ d < 10, digitChar d ≠ '_' := by decide

lemma digitChar_inj : ∀ d₁ < 10, ∀ d₂ < 10, digitChar d₁ = digitChar d₂ → d₁ = d₂ := by
  decide

lemma natChars_no_underscore (n : Nat) : '_' ∉ natChars n := by
  unfold natChars
  by_cases h : n = 0
  · rw [if_pos h]
    decide
  · rw [if_neg h]
    intro hmem
    rw [List.mem_reverse] at hmem
    rcases List.mem_map.mp hmem with ⟨d, hd, hdc⟩
    exact digitChar_ne_underscore d (Nat.digits_lt_base (by norm_num) hd) hdc

lemma map_digitChar_inj : ∀ l₁ l₂ : List Nat, (∀ d ∈ l₁, d < 10) → (∀ d ∈ l₂, d < 10) →
    l₁.map digitChar = l₂.map digitChar → l₁ = l₂ := by
  intro l₁
  induction l₁ with
  | nil =>
    intro l₂ _ _ h
    cases l₂ with
    | nil => rfl
    | cons b t => simp at h
  | cons a t ih =>
    intro l₂ h1 h2 h
    cases l₂ with
    | nil => simp at h
    | cons b t₂ =>
      simp only [List.map_cons, List.cons.injEq] at h
      obtain ⟨hab, ht⟩ := h
      have ha := digitChar_inj a (h1 a (by simp)) b (h2 b (by simp)) hab
      have ht' := ih t₂ (fun d hd => h1 d (by simp [hd])) (fun d hd => h2 d (by simp [hd])) ht
      rw [ha, ht']

lemma natChars_inj (m n : Nat) (h : natChars m = natChars n) : m = n := by
  unfold natChars at h
  by_cases hm : m = 0 <;> by_cases hn : n = 0
  · omega
  · exfalso
    rw [if_pos hm, if_neg hn] at h
    have hlen : ((Nat.digits 10 n).map digitChar).reverse.length = 1 := by
      rw [← h]; rfl
    simp only [List.length_reverse, List.length_map] at hlen
    rcases List.length_eq_one.mp hlen with ⟨d, hd⟩
    rw [hd] at h
    simp only [List.map_cons, List.map_nil, List.reverse_cons, List.reverse_nil,
      List.nil_append, List.cons.injEq] at h
    have hd10 : d < 10 := Nat.digits_lt_base (by norm_num) (by rw [hd]; simp)
    have : d = 0 := digitChar_inj d hd10 0 (by norm_num) (by rw [← h.1]; rfl)
    have hn' : n = Nat.ofDigits 10 (Nat.digits 10 n) := (Nat.ofDigits_digits 10 n).symm
    rw [hd, Nat.ofDigits_singleton] at hn'
    omega
  · exfalso
    rw [if_neg hm, if_pos hn] at h
    have hlen : ((Nat.digits 10 m).map digitChar).reverse.length = 1 := by
      rw [h]; rfl
    simp only [List.length_reverse, List.length_map] at hlen
    rcases List.length_eq_one.mp hlen with ⟨d, hd⟩
    rw [hd] at h
    simp only [List.map_cons, List.map_nil, List.reverse_cons, List.reverse_nil,
      List.nil_append, List.cons.injEq] at h
    have hd10 : d < 10 := Nat.digits_lt_base (by norm_num) (by rw [hd]; simp)
    have : d = 0 := digitChar_inj d hd10 0 (by norm_num) (by rw [h.1]; rfl)
    have hm' : m = Nat.ofDigits 10 (Nat.digits 10 m) := (Nat.ofDigits_digits 10 m).symm
    rw [hd, Nat.ofDigits_singleton] at hm'
    omega
  · rw [if_neg hm, if_neg hn, List.reverse_inj] at h
    have hdig := map_digitChar_inj (Nat.digits 10 m) (Nat.digits 10 n)
      (fun d hd => Nat.digits_lt_base (by norm_num) hd)
      (fun d hd => Nat.digits_lt_base (by norm_num) hd) h
    exact Nat.digits_inj_iff.mp hdig

lemma append_underscore_inj : ∀ a₁ b₁ a₂ b₂ : List Char, '_' ∉ a₁ → '_' ∉ a₂ →
    a₁ ++ '_' :: b₁ = a₂ ++ '_' :: b₂ → a₁ = a₂ ∧ b₁ = b₂ := by
  intro a₁
  induction a₁ with
  | nil =>
    intro b₁ a₂ b₂ _ h2 h
    cases a₂ with
    | nil =>
      simp only [List.nil_append, List.cons.injEq] at h
      exact ⟨rfl, h.2⟩
    | cons c t =>
      simp only [List.nil_append, List.cons_append, List.cons.injEq] at h
      exact absurd (by simp [← h.1]) h2
  | cons c t ih =>
    intro b₁ a₂ b₂ h1 h2 h
    cases a₂ with
    | nil =>
      simp only [List.cons_append, List.nil_append, List.cons.injEq] at h
      exact absurd (by simp [h.1]) h1
    | cons c₂ t₂ =>
      simp only [List.cons_append, List.cons.injEq] at h
      obtain ⟨hc, ht⟩ := h
      have := ih b₁ t₂ b₂ (fun hm => h1 (by simp [hm])) (fun hm => h2 (by simp [hm])) ht
      exact ⟨by rw [hc, this.1], this.2⟩

/-- The member name determines the tile origin: `crop_<x>_<y>.jpg` is injective
in `(x, y)`. -/
lemma memberName_inj (x₁ y₁ x₂ y₂ : Nat) (h : memberName x₁ y₁ = memberName x₂ y₂) :
    x₁ = x₂ ∧ y₁ = y₂ := by
  unfold memberName at h
  have hdata := congrArg String.data h
  rw [show ("crop_".data : List Char) = ['c', 'r', 'o', 'p', '_'] from rfl,
    show (".jpg".data : List Char) = ['.', 'j', 'p', 'g'] from rfl] at hdata
  simp only [List.cons_append, List.nil_append, List.cons.injEq, true_and] at hdata
  have h1 := List.append_cancel_right hdata
  have h2 := append_underscore_inj _ _ _ _ (natChars_no_underscore x₁)
    (natChars_no_underscore x₂) h1
  exact ⟨natChars_inj _ _ h2.1, natChars_inj _ _ h2.2⟩

/-- One archive member: the crop rectangle, its name in the zip, and its encoded
bytes (abstracted as `β`). -/
structure TileEntry (β : Type) where
  rect : Rect
  name : String
  data : β

/-- `processImageChunk` (rev 2 lines 162–200; the rev 1 handler inlines the same
loop): each iteration of the grid loop extracts and encodes its `cropArea` —
abstracted as `enc` — and files the result as `crop_${x}_${y}.jpg`.  The entry
list is in loop order; `zip.file` is called exactly once per planned rectangle,
with the rectangle's top-left corner as `(x, y)`. -/
def processImageChunk (β : Type) (enc : Rect → β)
    (width height cropWidthInt cropHeightInt : Nat)
    (hw : 0 < cropWidthInt) (hh : 0 < cropHeightInt) : List (TileEntry β) :=
  (plan width height cropWidthInt cropHeightInt hw hh).map
    (fun r => ⟨r, memberName r.left r.top, enc r⟩)

/-- C4: every archive member is named `crop_<originX>_<originY>.jpg` from its
tile's top-left pixel coordinates, and the names are pairwise unique across the
job's rectangles. -/
theorem member_names_unique (β : Type) (enc : Rect → β)
    (width height cropWidthInt cropHeightInt : Nat)
    (hw : 0 < cropWidthInt) (hh : 0 < cropHeightInt) :
    (∀ e ∈ processImageChunk β enc width height cropWidthInt cropHeightInt hw hh,
        e.name = memberName e.rect.left e.rect.top)
    ∧ ((processImageChunk β enc width height cropWidthInt cropHeightInt hw hh).map
        TileEntry.name).Nodup := by
  constructor
  · intro e he
    rcases List.mem_map.mp he with ⟨r, _, rfl⟩
    rfl
  · unfold processImageChunk
    rw [List.map_map]
    have hcomp : (TileEntry.name ∘ fun r : Rect =>
        (⟨r, memberName r.left r.top, enc r⟩ : TileEntry β)) =
        fun r : Rect => memberName r.left r.top := rfl
    rw [hcomp, List.Nodup, List.pairwise_map]
    apply (plan_pairwise _ _ _ _ hw hh).imp
    intro r₁ r₂ hrel heq
    rcases memberName_inj _ _ _ _ heq with ⟨hx, hy⟩
    rcases hrel.1 with hlt | ⟨_, hlt⟩ <;> omega

/-- Witness for C4: at image 100×100, tile 50×50 the four member names are
pairwise distinct. -/
theorem member_names_unique_witness :
    (0 < 50 ∧ 0 < 50) ∧
      ((processImageChunk Unit (fun _ => ()) 100 100 50 50 (by norm_num)
        (by norm_num)).map TileEntry.name).Nodup :=
  ⟨by norm_num, (member_names_unique Unit (fun _ => ()) 100 100 50 50
    (by norm_num) (by norm_num)).2⟩

/-- Result of one whole job: archive object name and member entries
(rev 2 lines 236–248). -/
structure JobResult (β : Type) where
  zipFileName : String
  entries : List (TileEntry β)

/-- One full pipeline run: `processImageChunk` over the decoded metadata, then the
archive is named `cropped_images_<timestamp>.zip` (rev 2 lines 236–239).  `enc`
abstracts the JPEG encoder, whose internals may be nondeterministic; `timestamp`
abstracts the job-start wall clock. -/
def runJob (β : Type) (enc : Rect → β) (timestamp : String)
    (width height cropWidthInt cropHeightInt : Nat)
    (hw : 0 < cropWidthInt) (hh : 0 < cropHeightInt) : JobResult β :=
  { zipFileName := "cropped_images_" ++ timestamp ++ ".zip",
    entries := processImageChunk β enc width height cropWidthInt cropHeightInt hw hh }

/-- C8: two runs of the whole pipeline on the same source image metadata and the
same tile size produce the same member names and the same rectangle geometries,
even if the encoders and the timestamps of the two runs differ arbitrarily. -/
theorem pipeline_runs_agree (β₁ β₂ : Type) (enc₁ : Rect → β₁) (enc₂ : Rect → β₂)
    (ts₁ ts₂ : String) (width height cropWidthInt cropHeightInt : Nat)
    (hw : 0 < cropWidthInt) (hh : 0 < cropHeightInt) :
    ((runJob β₁ enc₁ ts₁ width height cropWidthInt cropHeightInt hw hh).entries.map
        TileEntry.name =
      (runJob β₂ enc₂ ts₂ width height cropWidthInt cropHeightInt hw hh).entries.map
        TileEntry.name)
    ∧ ((runJob β₁ enc₁ ts₁ width height cropWidthInt cropHeightInt hw hh).entries.map
        TileEntry.rect =
      (runJob β₂ enc₂ ts₂ width height cropWidthInt cropHeightInt hw hh).entries.map
        TileEntry.rect) := by
  unfold runJob processImageChunk
  simp only [List.map_map]
  exact ⟨rfl, rfl⟩

/-- Witness for C8: a run encoding to `Nat` with timestamp "20240101000000" and a
run encoding to `Bool` with timestamp "20240102000000" agree on names. -/
theorem pipeline_runs_agree_witness :
    (0 < 50 ∧ 0 < 50) ∧
      (runJob Nat (fun _ => 0) "20240101000000" 100 100 50 50 (by norm_num)
          (by norm_num)).entries.map TileEntry.name =
        (runJob Bool (fun _ => true) "20240102000000" 100 100 50 50 (by norm_num)
          (by norm_num)).entries.map TileEntry.name :=
  ⟨by norm_num, (pipeline_runs_agree Nat Bool (fun _ => 0) (fun _ => true)
    "20240101000000" "20240102000000" 100 100 50 50 (by norm_num) (by norm_num)).1⟩

/-- Decoded image metadata, `await sharp(image.buffer).metadata()`. -/
structure ImageData where
  width : Nat
  height : Nat
deriving DecidableEq, Repr

/-- One incoming request after multipart parsing: the optional image file, and the
two tile-dimension fields as `parseInt` leaves them — `none` models `NaN`
(missing or non-numeric field), `some n` a parsed integer. -/
structure CropRequest where
  image : Option ImageData
  cropWidth : Option Int
  cropHeight : Option Int

/-- Outcome of a handler's validation prefix: an immediate 400 response with its
message, or entry into the processing stage. -/
inductive Outcome (α : Type) where
  | badRequest (msg : String)
  | processed (result : α)
deriving DecidableEq

/-- Revision 1 handler prefix (lines 26–70): 400 "No image uploaded" when the
image is missing; 400 "Invalid crop dimensions" when a crop field is NaN or
non-positive; 400 "Crop dimensions exceed image dimensions" when a crop
dimension exceeds the image dimension; otherwise the grid loop runs. -/
def rev1Handler (req : CropRequest) : Outcome (List Rect) :=
  match req.image with
  | none => .badRequest "No image uploaded"
  | some metadata =>
    match req.cropWidth, req.cropHeight with
    | some cropWidthInt, some cropHeightInt =>
      if hpos : cropWidthInt ≤ 0 ∨ cropHeightInt ≤ 0 then
        .badRequest "Invalid crop dimensions"
      else if cropWidthInt > (metadata.width : Int) ∨ cropHeightInt > (metadata.height : Int) then
        .badRequest "Crop dimensions exceed image dimensions"
      else
        .processed (plan metadata.width metadata.height cropWidthInt.toNat cropHeightInt.toNat
          (by omega) (by omega))
    | _, _ => .badRequest "Invalid crop dimensions"

/-- Revision 2 handler prefix (lines 217–236): identical validation except that
there is no oversized-dimension check — processing always proceeds for a present
image and positive crop dimensions. -/
def rev2Handler (req : CropRequest) : Outcome (List Rect) :=
  match req.image with
  | none => .badRequest "No image uploaded"
  | some metadata =>
    match req.cropWidth, req.cropHeight with
    | some cropWidthInt, some cropHeightInt =>
      if hpos : cropWidthInt ≤ 0 ∨ cropHeightInt ≤ 0 then
        .badRequest "Invalid crop dimensions"
      else
        .processed (plan metadata.width metadata.height cropWidthInt.toNat cropHeightInt.toNat
          (by omega) (by omega))
    | _, _ => .badRequest "Invalid crop dimensions"

/-- C5: a request with a missing image, or a NaN or non-positive crop dimension,
is answered with a 400 in both revisions before any processing: the outcome is a
`badRequest` and in particular never reaches the `processed` stage (so no
decoding, cropping, archiving or upload happens, and nothing is retried —
the only retried operation, `uploadWithRetry`, lives inside the processing
stage). -/
theorem invalid_input_rejected (req : CropRequest)
    (h : req.image = none ∨ req.cropWidth = none ∨ req.cropHeight = none ∨
      (∃ cw, req.cropWidth = some cw ∧ cw ≤ 0) ∨
      (∃ ch, req.cropHeight = some ch ∧ ch ≤ 0)) :
    ((∃ msg, rev1Handler req = Outcome.badRequest msg) ∧
      ∀ result, rev1Handler req ≠ Outcome.processed result) ∧
    ((∃ msg, rev2Handler req = Outcome.badRequest msg) ∧
      ∀ result, rev2Handler req ≠ Outcome.processed result) := by
  obtain ⟨img, cw, ch⟩ := req
  have key : (∃ msg, rev1Handler ⟨img, cw, ch⟩ = Outcome.badRequest msg) ∧
      (∃ msg, rev2Handler ⟨img, cw, ch⟩ = Outcome.badRequest msg) := by
    rcases img with _ | img
    · exact ⟨⟨_, rfl⟩, ⟨_, rfl⟩⟩
    rcases cw with _ | cw
    · exact ⟨⟨_, rfl⟩, ⟨_, rfl⟩⟩
    rcases ch with _ | ch
    · exact ⟨⟨_, rfl⟩, ⟨_, rfl⟩⟩
    have hneg : cw ≤ 0 ∨ ch ≤ 0 := by
      rcases h with h | h | h | ⟨cw', hcw, hle⟩ | ⟨ch', hch, hle⟩
      · exact absurd h (by simp)
      · exact absurd h (by simp)
      · exact absurd h (by simp)
      · refine Or.inl ?_
        simp only [Option.some.injEq] at hcw
        omega
      · refine Or.inr ?_
        simp only [Option.some.injEq] at hch
        omega
    constructor
    · exact ⟨_, by simp only [rev1Handler]; rw [dif_pos hneg]⟩
    · exact ⟨_, by simp only [rev2Handler]; rw [dif_pos hneg]⟩
  refine ⟨⟨key.1, ?_⟩, ⟨key.2, ?_⟩⟩
  · intro result hres
    rcases key.1 with ⟨msg, hmsg⟩
    rw [hmsg] at hres
    exact Outcome.noConfusion hres
  · intro result hres
    rcases key.2 with ⟨msg, hmsg⟩
    rw [hmsg] at hres
    exact Outcome.noConfusion hres

/-- Witness for C5: the request with no image and valid crop fields is rejected
by both handler revisions. -/
theorem invalid_input_rejected_witness :
    ((⟨none, some 1, some 1⟩ : CropRequest).image = none) ∧
      ((∃ msg, rev1Handler ⟨none, some 1, some 1⟩ = Outcome.badRequest msg) ∧
        ∀ result, rev1Handler ⟨none, some 1, some 1⟩ ≠ Outcome.processed result) ∧
      ((∃ msg, rev2Handler ⟨none, some 1, some 1⟩ = Outcome.badRequest msg) ∧
        ∀ result, rev2Handler ⟨none, some 1, some 1⟩ ≠ Outcome.processed result) :=
  ⟨rfl, (invalid_input_rejected ⟨none, some 1, some 1⟩ (Or.inl rfl)).1,
    (invalid_input_rejected ⟨none, some 1, some 1⟩ (Or.inl rfl)).2⟩

/-- C3 counterexample: revision 1 REJECTS oversized tile dimensions.  A 2×2 image
with valid positive 3×3 tile dimensions is answered with a 400, contradicting
"the request is not rejected … and processing proceeds". -/
theorem oversized_rejected_by_rev1 :
    rev1Handler ⟨some ⟨2, 2⟩, some 3, some 3⟩ =
      Outcome.badRequest "Crop dimensions exceed image dimensions" := by
  simp only [rev1Handler]
  rw [dif_neg (by omega)]
  rw [if_pos (by norm_num)]

lemma cdiv_eq_one (a b : Nat) (ha : 0 < a) (hab : a ≤ b) : cdiv a b = 1 := by
  unfold cdiv
  apply Nat.div_eq_of_lt_le <;> omega

/-- C3 amended: revision 2 does not reject oversized tile dimensions — its
handler reaches processing for any present image and positive crop fields, the
planner clamps: when both tile dimensions are at least the image dimensions it
emits the single full-image rectangle, and when one dimension is oversized every
emitted rectangle is clamped to the image in that dimension.  (Revision 1
instead rejects such requests with a 400, per `oversized_rejected_by_rev1`.) -/
theorem oversized_clamped_by_planner (width height cropWidthInt cropHeightInt : Nat)
    (hW : 0 < width) (hH : 0 < height) (hw : 0 < cropWidthInt) (hh : 0 < cropHeightInt) :
    (width ≤ cropWidthInt → height ≤ cropHeightInt →
      plan width height cropWidthInt cropHeightInt hw hh =
        [{ left := 0, top := 0, width := width, height := height }])
    ∧ (width ≤ cropWidthInt →
        ∀ r ∈ plan width height cropWidthInt cropHeightInt hw hh,
          r.left = 0 ∧ r.width = width)
    ∧ (height ≤ cropHeightInt →
        ∀ r ∈ plan width height cropWidthInt cropHeightInt hw hh,
          r.top = 0 ∧ r.height = height)
    ∧ (∀ (img : ImageData) (a b : Int) (ha : 0 < a) (hb : 0 < b),
        rev2Handler ⟨some img, some a, some b⟩ =
          Outcome.processed (plan img.width img.height a.toNat b.toNat
            (by omega) (by omega))) := by
  refine ⟨?_, ?_, ?_, ?_⟩
  · intro hcw hch
    rw [plan_eq _ _ _ _ hw hh, cdiv_eq_one _ _ hW hcw, cdiv_eq_one _ _ hH hch]
    rw [show List.range 1 = [0] from rfl]
    simp only [List.map_cons, List.map_nil, List.flatten_cons, List.flatten_nil,
      List.append_nil, planRect, Nat.zero_mul, Nat.sub_zero]
    rw [min_eq_right hcw, min_eq_right hch]
  · intro hcw r hr
    rw [mem_plan_iff _ _ _ _ hw hh] at hr
    obtain ⟨i, j, hi, hj, rfl⟩ := hr
    rw [cdiv_eq_one _ _ hW hcw] at hi
    have hi0 : i = 0 := by omega
    subst hi0
    simp only [planRect, Nat.zero_mul, Nat.sub_zero]
    exact ⟨trivial, min_eq_right hcw⟩
  · intro hch r hr
    rw [mem_plan_iff _ _ _ _ hw hh] at hr
    obtain ⟨i, j, hi, hj, rfl⟩ := hr
    rw [cdiv_eq_one _ _ hH hch] at hj
    have hj0 : j = 0 := by omega
    subst hj0
    simp only [planRect, Nat.zero_mul, Nat.sub_zero]
    exact ⟨trivial, min_eq_right hch⟩
  · intro img a b ha hb
    simp only [rev2Handler]
    rw [dif_neg (by omega)]

/-- Witness for C3 (amended): the 2×2 image with 3×3 tiles yields the single
full-image rectangle and revision 2 reaches processing for that request. -/
theorem oversized_clamped_by_planner_witness :
    (0 < 2 ∧ 2 ≤ 3) ∧
      plan 2 2 3 3 (by norm_num) (by norm_num) =
        [{ left := 0, top := 0, width := 2, height := 2 }] :=
  ⟨by norm_num, (oversized_clamped_by_planner 2 2 3 3 (by norm_num) (by norm_num)
    (by norm_num) (by norm_num)).1 (by norm_num) (by norm_num)⟩

/-- The `async-retry` combinator as configured by `uploadWithRetry`
(rev 2 lines 202–215).  In `async-retry`/`node-retry`, `retries` is the number of
RETRIES after the initial attempt, so `{retries: 3}` allows up to 4 attempts in
total.  `op i` tells whether `upload.done()` succeeds on attempt `i` (attempts
numbered from 1).  Returns whether the operation eventually succeeded together
with the number of the last attempt performed.  The `minTimeout`/`maxTimeout`
backoff options only delay attempts; they do not change the result. -/
def retryGo (op : Nat → Bool) (attempt remaining : Nat) : Bool × Nat :=
  if op attempt then (true, attempt)
  else
    match remaining with
    | 0 => (false, attempt)
    | r + 1 => retryGo op (attempt + 1) r

/-- `retry(fn, {retries})`: initial attempt plus up to `retries` retries. -/
def asyncRetry (op : Nat → Bool) (retries : Nat) : Bool × Nat :=
  retryGo op 1 retries

/-- The error taxonomy surfaced by revision 2: validation errors, the message
thrown by `processImageChunk`, and the message thrown by `uploadWithRetry`. -/
inductive JobError where
  | inputError (msg : String)
  | processingError (msg : String)
  | uploadError (msg : String)
deriving DecidableEq

/-- `uploadWithRetry` (rev 2 lines 202–215): wraps `upload.done()` in
`retry(..., {retries: 3, minTimeout: 1000, maxTimeout: 3000})`; on exhaustion
it throws `'Failed to upload after multiple attempts.'`.  The second component
is the number of attempts performed. -/
def uploadWithRetry (op : Nat → Bool) : Except JobError Unit × Nat :=
  match asyncRetry op 3 with
  | (true, n) => (Except.ok (), n)
  | (false, n) =>
    (Except.error (JobError.uploadError "Failed to upload after multiple attempts."), n)

/-- C6 counterexample: with `{retries: 3}` the code performs 4 attempts, not a
`maxAttempts` between 2 and 3: a persistently failing upload is attempted 4
times, and an upload failing on the first 3 attempts still succeeds (on attempt
4), where the claim's `maxAttempts ≤ 3` would already have failed the job. -/
theorem upload_attempt_count_is_four :
    (uploadWithRetry (fun _ => false)).2 = 4 ∧
      (uploadWithRetry (fun i => decide (4 ≤ i))).1 = Except.ok () ∧
      ¬ (4 ≤ 3) := by
  refine ⟨rfl, rfl, by omega⟩

/-- C6 amended: the upload retry is bounded with `maxAttempts = 4` (one initial
attempt plus `retries: 3`): a fault on the first `k < 4` attempts still lets the
job succeed on attempt `k + 1`; faults on all attempts make the job fail after
exactly 4 attempts with the terminal upload error, whose constructor is distinct
from the input- and processing-error constructors; and no run ever performs more
than 4 attempts. -/
theorem upload_retry_bounded (op : Nat → Bool) :
    (∀ k, k < 4 → (∀ i, i < k + 1 → 1 ≤ i → op i = false) → op (k + 1) = true →
      uploadWithRetry op = (Except.ok (), k + 1))
    ∧ ((∀ i, op i = false) →
      uploadWithRetry op =
        (Except.error (JobError.uploadError "Failed to upload after multiple attempts."), 4))
    ∧ (uploadWithRetry op).2 ≤ 4
    ∧ (∀ m₁ m₂ : String, JobError.uploadError m₁ ≠ JobError.inputError m₂ ∧
        JobError.uploadError m₁ ≠ JobError.processingError m₂) := by
  refine ⟨?_, ?_, ?_, fun m₁ m₂ => ⟨by simp, by simp⟩⟩
  · intro k hk hfail hsucc
    interval_cases k
    · simp [uploadWithRetry, asyncRetry, retryGo, hsucc]
    · have h1 := hfail 1 (by omega) (by omega)
      simp [uploadWithRetry, asyncRetry, retryGo, h1, hsucc]
    · have h1 := hfail 1 (by omega) (by omega)
      have h2 := hfail 2 (by omega) (by omega)
      simp [uploadWithRetry, asyncRetry, retryGo, h1, h2, hsucc]
    · have h1 := hfail 1 (by omega) (by omega)
      have h2 := hfail 2 (by omega) (by omega)
      have h3 := hfail 3 (by omega) (by omega)
      simp [uploadWithRetry, asyncRetry, retryGo, h1, h2, h3, hsucc]
  · intro hall
    simp [uploadWithRetry, asyncRetry, retryGo, hall 1, hall 2, hall 3, hall 4]
  · cases h1 : op 1 <;> cases h2 : op 2 <;> cases h3 : op 3 <;> cases h4 : op 4 <;>
      simp [uploadWithRetry, asyncRetry, retryGo, h1, h2, h3, h4]

/-- Witness for C6 (amended): a fault on attempt 1 only; the job succeeds on
attempt 2. -/
theorem upload_retry_bounded_witness :
    (1 < 4 ∧ (∀ i, i < 2 → 1 ≤ i → (fun i => decide (2 ≤ i)) i = false) ∧
        (fun i => decide (2 ≤ i)) 2 = true) ∧
      uploadWithRetry (fun i => decide (2 ≤ i)) = (Except.ok (), 2) :=
  ⟨⟨by omega, by decide, by decide⟩,
    (upload_retry_bounded (fun i => decide (2 ≤ i))).1 1 (by omega) (by decide) (by decide)⟩

/-- Revision 2 builds ONE `PassThrough` stream, pipes ONE
`zip.generateNodeStream(...)` into it (line 248), wraps it in ONE `Upload`
object (lines 250–258), and `uploadWithRetry` then re-invokes `upload.done()`
on that same object (line 260 via lines 204–206).  A Node stream is one-pass:
reading consumes it and nothing re-produces the archive per attempt.  This
function returns what each performed attempt reads: `content` is the archive
chunk sequence, `pos` the shared stream position (an attempt reads everything
after `pos`, leaving the position at the end), `fault i` injects a failure into
attempt `i` after its read, and `remaining` counts the retries left
(`{retries: 3}`). -/
def streamRetryReads (content : List String) (fault : Nat → Bool) :
    Nat → Nat → Nat → List (List String)
  | attempt, pos, 0 => [content.drop pos]
  | attempt, pos, r + 1 =>
    if fault attempt then
      content.drop pos ::
        streamRetryReads content fault (attempt + 1) content.length r
    else [content.drop pos]

/-- What each upload attempt of the revision 2 pipeline reads from the shared
zip stream, starting at attempt 1, position 0, with 3 retries remaining. -/
def rev2UploadReads (content : List String) (fault : Nat → Bool) : List (List String) :=
  streamRetryReads content fault 1 0 3

/-- Shared concrete job: a 1×2-pixel image with 1×1 tiles plans two stacked
unit rectangles. -/
lemma plan_one_by_two :
    plan 1 2 1 1 (by norm_num) (by norm_num) =
      [{ left := 0, top := 0, width := 1, height := 1 },
       { left := 0, top := 1, width := 1, height := 1 }] := by
  rw [plan_eq]
  rfl

/-- The two member names of that job. -/
lemma names_one_by_two :
    (processImageChunk Unit (fun _ => ()) 1 2 1 1 (by norm_num) (by norm_num)).map
        TileEntry.name = [memberName 0 0, memberName 0 1] := by
  unfold processImageChunk
  rw [plan_one_by_two]
  rfl

/-- C7, evaluated at the failing input: for the 1×2-pixel job (archive members
`crop_0_0.jpg`, `crop_0_1.jpg`) with a transient fault on the first upload
attempt only, the first attempt consumes the whole stream and the retried second
attempt reads an EMPTY stream — not the complete archive content the claim
requires. -/
theorem retry_reuses_consumed_stream :
    (processImageChunk Unit (fun _ => ()) 1 2 1 1 (by norm_num) (by norm_num)).map
        TileEntry.name = [memberName 0 0, memberName 0 1] ∧
      rev2UploadReads [memberName 0 0, memberName 0 1] (fun i => decide (i = 1)) =
        [[memberName 0 0, memberName 0 1], []] ∧
      ([] : List String) ≠ [memberName 0 0, memberName 0 1] := by
  refine ⟨names_one_by_two, ?_, by simp⟩
  rfl

/-- Archive-production / upload events of one job: a member is added to the zip
object, or the upload consumes one chunk of the generated stream. -/
inductive Ev where
  | addMember (name : String)
  | consumeChunk (name : String)
deriving DecidableEq

/-- Is this event a member addition? -/
def isAdd : Ev → Bool
  | .addMember _ => true
  | .consumeChunk _ => false

/-- Is this event a stream-chunk consumption by the upload? -/
def isConsume : Ev → Bool
  | .addMember _ => false
  | .consumeChunk _ => true

/-- The event order of the revision 2 handler (lines 232–260):
`await processImageChunk(image.buffer, ..., zip)` resolves only after every
`zip.file` call has been made; only then is
`zip.generateNodeStream({streamFiles: true})` piped into the `PassThrough`
consumed by the `Upload`.  The archive bytes are produced and consumed
incrementally — modeled as one chunk per member — but only after the last
member was added. -/
def rev2Trace (members : List String) : List Ev :=
  members.map Ev.addMember ++ members.map Ev.consumeChunk

/-- Does some consume event happen strictly before some add event? -/
def consumeBeforeAdd : List Ev → Bool
  | [] => false
  | e :: rest => (isConsume e && rest.any isAdd) || consumeBeforeAdd rest

lemma any_isAdd_map_consumeChunk (l : List String) :
    (l.map Ev.consumeChunk).any isAdd = false := by
  induction l with
  | nil => rfl
  | cons a t ih => simp [isAdd, ih]

lemma consumeBeforeAdd_adds_then_consumes (adds consumes : List String) :
    consumeBeforeAdd (adds.map Ev.addMember ++ consumes.map Ev.consumeChunk) = false := by
  induction adds with
  | nil =>
    simp only [List.map_nil, List.nil_append]
    induction consumes with
    | nil => rfl
    | cons a t ih =>
      simp only [List.map_cons, consumeBeforeAdd, ih, Bool.or_false]
      simp [isConsume, any_isAdd_map_consumeChunk]
  | cons a t ih =>
    simp only [List.map_cons, List.cons_append, consumeBeforeAdd, isConsume,
      Bool.false_and, Bool.false_or]
    exact ih

/-- C9 counterexample: for the concrete 2-member job, the revision 2 event trace
performs both consume events strictly AFTER both add events — the upload does not
begin consuming before all members are known, contradicting the claim. -/
theorem upload_begins_after_all_members_added :
    rev2Trace [memberName 0 0, memberName 0 1] =
      [Ev.addMember (memberName 0 0), Ev.addMember (memberName 0 1),
        Ev.consumeChunk (memberName 0 0), Ev.consumeChunk (memberName 0 1)] ∧
      consumeBeforeAdd (rev2Trace [memberName 0 0, memberName 0 1]) = false ∧
      (rev2Trace [memberName 0 0, memberName 0 1]).any isConsume = true :=
  ⟨rfl, rfl, rfl⟩

/-- C9 amended: in revision 2 the archive is emitted and uploaded chunk by chunk
(one chunk per member, `streamFiles: true`), but the upload begins only after
every member has been added to the zip object: no consume event ever precedes an
add event, so the full set of encoded tiles is resident in the zip object when
upload starts.  (Revision 1 additionally materializes the entire archive buffer
via `generateAsync` before uploading.) -/
theorem upload_trace_adds_precede_consumes (members : List String) :
    rev2Trace members =
        members.map Ev.addMember ++ members.map Ev.consumeChunk ∧
      consumeBeforeAdd (rev2Trace members) = false :=
  ⟨rfl, consumeBeforeAdd_adds_then_consumes members members⟩

/-- The run-time state of the nested `while` loops: the two cursors and the
rectangles emitted so far. -/
structure LoopState where
  x : Nat
  y : Nat
  acc : List Rect
deriving DecidableEq, Repr

/-- The `cropArea` object built at cursor position `(x, y)` (rev 1 lines 54–59). -/
def cropAreaAt (width height cropWidthInt cropHeightInt x y : Nat) : Rect :=
  { left := x, top := y,
    width := min cropWidthInt (width - x),
    height := min cropHeightInt (height - y) }

/-- One small step of the nested `while` loops (rev 1 lines 49–70): when the
outer guard `y < height` holds and the inner guard `x < width` holds, emit the
`cropArea` and advance `x += cropWidthInt`; when only the outer guard holds, the
inner loop exits: `x = 0; y += cropHeightInt`; when the outer guard fails the
loop has terminated (`none`). -/
def loopStep (width height cropWidthInt cropHeightInt : Nat) (s : LoopState) :
    Option LoopState :=
  if s.y < height then
    if s.x < width then
      some { x := s.x + cropWidthInt, y := s.y,
             acc := s.acc ++ [cropAreaAt width height cropWidthInt cropHeightInt s.x s.y] }
    else
      some { x := 0, y := s.y + cropHeightInt, acc := s.acc }
  else none

/-- Run `n` small steps (stopping early if the loop has terminated). -/
def loopRun (width height cropWidthInt cropHeightInt : Nat) : Nat → LoopState → LoopState
  | 0, s => s
  | n + 1, s =>
    match loopStep width height cropWidthInt cropHeightInt s with
    | none => s
    | some s' => loopRun width height cropWidthInt cropHeightInt n s'

lemma loopRun_halt (width height cropWidthInt cropHeightInt : Nat) (s : LoopState)
    (hs : loopStep width height cropWidthInt cropHeightInt s = none) :
    ∀ n, loopRun width height cropWidthInt cropHeightInt n s = s := by
  intro n
  cases n with
  | zero => rfl
  | succ n => simp [loopRun, hs]

lemma loopRun_add (width height cropWidthInt cropHeightInt : Nat) :
    ∀ a b s, loopRun width height cropWidthInt cropHeightInt (a + b) s =
      loopRun width height cropWidthInt cropHeightInt b
        (loopRun width height cropWidthInt cropHeightInt a s) := by
  intro a
  induction a with
  | zero =>
    intro b s
    rw [Nat.zero_add]
    rfl
  | succ a ih =>
    intro b s
    have hc : a + 1 + b = (a + b) + 1 := by omega
    rw [hc]
    cases hstep : loopStep width height cropWidthInt cropHeightInt s with
    | none =>
      rw [loopRun_halt _ _ _ _ s hstep, loopRun_halt _ _ _ _ s hstep,
        loopRun_halt _ _ _ _ s hstep]
    | some s' =>
      simp only [loopRun, hstep]
      exact ih b s'

lemma loopRun_row (width height cropWidthInt cropHeightInt : Nat)
    (hw : 0 < cropWidthInt) (hh : 0 < cropHeightInt) :
    ∀ m x y acc, width - x ≤ m → y < height →
      ∃ n, loopRun width height cropWidthInt cropHeightInt n ⟨x, y, acc⟩ =
        ⟨0, y + cropHeightInt, acc ++ rowLoop width cropWidthInt cropHeightInt height y hw x⟩ := by
  intro m
  induction m with
  | zero =>
    intro x y acc hx hy
    refine ⟨1, ?_⟩
    have hxW : ¬ x < width := by omega
    rw [rowLoop, dif_neg hxW]
    simp [loopRun, loopStep, hy, hxW]
  | succ m ih =>
    intro x y acc hx hy
    by_cases hlt : x < width
    · obtain ⟨n, hn⟩ := ih (x + cropWidthInt) y
        (acc ++ [cropAreaAt width height cropWidthInt cropHeightInt x y]) (by omega) hy
      refine ⟨n + 1, ?_⟩
      have hstep : loopStep width height cropWidthInt cropHeightInt ⟨x, y, acc⟩ =
          some ⟨x + cropWidthInt, y,
            acc ++ [cropAreaAt width height cropWidthInt cropHeightInt x y]⟩ := by
        simp [loopStep, hy, hlt]
      have hrun : loopRun width height cropWidthInt cropHeightInt (n + 1) ⟨x, y, acc⟩ =
          loopRun width height cropWidthInt cropHeightInt n ⟨x + cropWidthInt, y,
            acc ++ [cropAreaAt width height cropWidthInt cropHeightInt x y]⟩ := by
        simp only [loopRun, hstep]
      have hrow : rowLoop width cropWidthInt cropHeightInt height y hw x =
          cropAreaAt width height cropWidthInt cropHeightInt x y ::
            rowLoop width cropWidthInt cropHeightInt height y hw (x + cropWidthInt) := by
        rw [rowLoop, dif_pos hlt]
        rfl
      rw [hrun, hn, hrow]
      simp
    · refine ⟨1, ?_⟩
      rw [rowLoop, dif_neg hlt]
      simp [loopRun, loopStep, hy, hlt]

lemma loopRun_grid (width height cropWidthInt cropHeightInt : Nat)
    (hw : 0 < cropWidthInt) (hh : 0 < cropHeightInt) :
    ∀ m y acc, height - y ≤ m →
      ∃ n s, loopRun width height cropWidthInt cropHeightInt n ⟨0, y, acc⟩ = s ∧
        loopStep width height cropWidthInt cropHeightInt s = none ∧
        s.acc = acc ++ gridLoop width height cropWidthInt cropHeightInt hw hh y := by
  intro m
  induction m with
  | zero =>
    intro y acc hy
    have hyH : ¬ y < height := by omega
    refine ⟨0, ⟨0, y, acc⟩, rfl, by simp [loopStep, hyH], ?_⟩
    rw [gridLoop, dif_neg hyH]
    simp
  | succ m ih =>
    intro y acc hy
    by_cases hlt : y < height
    · obtain ⟨n₁, hn₁⟩ := loopRun_row width height cropWidthInt cropHeightInt hw hh
        (width - 0) 0 y acc le_rfl hlt
      obtain ⟨n₂, s, hn₂, hs, hacc⟩ := ih (y + cropHeightInt)
        (acc ++ rowLoop width cropWidthInt cropHeightInt height y hw 0) (by omega)
      refine ⟨n₁ + n₂, s, ?_, hs, ?_⟩
      · rw [loopRun_add, hn₁, hn₂]
      · have hgrid : gridLoop width height cropWidthInt cropHeightInt hw hh y =
            rowLoop width cropWidthInt cropHeightInt height y hw 0 ++
              gridLoop width height cropWidthInt cropHeightInt hw hh (y + cropHeightInt) := by
          rw [gridLoop, dif_pos hlt]
        rw [hacc, hgrid]
        simp
    · have hyH : ¬ y < height := hlt
      refine ⟨0, ⟨0, y, acc⟩, rfl, by simp [loopStep, hyH], ?_⟩
      rw [gridLoop, dif_neg hyH]
      simp

/-- C10: for positive tile dimensions the nested cropping loop terminates after
finitely many iterations — the small-step machine reaches a state where the
outer guard fails — and the finite sequence of `cropArea`s it emitted is exactly
the planner's output. -/
theorem grid_loop_terminates (width height cropWidthInt cropHeightInt : Nat)
    (hw : 0 < cropWidthInt) (hh : 0 < cropHeightInt) :
    ∃ n s, loopRun width height cropWidthInt cropHeightInt n ⟨0, 0, []⟩ = s ∧
      loopStep width height cropWidthInt cropHeightInt s = none ∧
      s.acc = plan width height cropWidthInt cropHeightInt hw hh := by
  obtain ⟨n, s, h1, h2, h3⟩ := loopRun_grid width height cropWidthInt cropHeightInt hw hh
    (height - 0) 0 [] le_rfl
  exact ⟨n, s, h1, h2, by simpa [plan] using h3⟩

/-- Witness for C10 at a 2×2 image with 1×1 tiles. -/
theorem grid_loop_terminates_witness :
    (0 < 1 ∧ 0 < 1) ∧
      ∃ n s, loopRun 2 2 1 1 n ⟨0, 0, []⟩ = s ∧
        loopStep 2 2 1 1 s = none ∧
        s.acc = plan 2 2 1 1 (by norm_num) (by norm_num) :=
  ⟨by norm_num, grid_loop_terminates 2 2 1 1 (by norm_num) (by norm_num)⟩

end ImageCropper
